import Mathlib

/-!
Verification development for the pandoc-wasm virtual-filesystem bridge
(`src/core.js`).  The development shallowly embeds the `convert` pipeline:
seeding an in-memory named-file store with system paths, caller files and
option-declared placeholders; invoking the opaque conversion module (modelled
as an arbitrary function on the store); harvesting the declared output and
extraction target; classifying the post-run store entries into the `files`
and `mediaFiles` result mappings; and decoding the diagnostic streams.

Byte payloads are `List Nat` (byte values); JavaScript strings are modelled
as well-formed Unicode text via Lean `String`; `TextEncoder` /
`TextDecoder("utf-8", {fatal: true})` are modelled by an executable UTF-8
codec defined below following the WHATWG encoding standard (strict decode:
overlong forms, surrogates, out-of-range code points and truncated sequences
are rejected).
-/

deriving instance DecidableEq for Except

namespace PandocWasm

/-- Byte sequences: each element is a byte value (< 256 for well-formed data). -/
abbrev Bytes := List Nat

/-- UTF-8 encoding of a single Unicode scalar value (`TextEncoder` behaviour,
written with division/modulo arithmetic). -/
def utf8EncodeChar (c : Char) : List Nat :=
  let n := c.toNat
  if n < 0x80 then [n]
  else if n < 0x800 then [0xC0 + n / 64, 0x80 + n % 64]
  else if n < 0x10000 then
    [0xE0 + n / 4096, 0x80 + n / 64 % 64, 0x80 + n % 64]
  else
    [0xF0 + n / 262144, 0x80 + n / 4096 % 64, 0x80 + n / 64 % 64,
      0x80 + n % 64]

/-- UTF-8 encoding of a sequence of Unicode scalar values. -/
def encodeUtf8 : List Char → List Nat
  | [] => []
  | c :: cs => utf8EncodeChar c ++ encodeUtf8 cs

/-- State of the streaming strict UTF-8 decoder (`TextDecoder` with
`fatal: true`, WHATWG encoding standard): either between characters, or
inside a multi-byte sequence with `needed` continuation bytes still
expected, the partially accumulated code point, and the admissible range
`[lo, hi]` for the next byte (the boundaries reject overlong encodings,
surrogate code points and code points above `U+10FFFF`). -/
inductive Utf8State where
  | idle
  | more (needed code lo hi : Nat)
deriving DecidableEq

/-- Streaming strict UTF-8 decoder: processes one byte per step; `none`
models the `TypeError` thrown on invalid input (stray continuation bytes,
lead bytes `C0`/`C1`/`F5`–`FF`, out-of-range continuation bytes, and
truncated sequences at end of input). -/
def decodeUtf8Go : Utf8State → List Nat → List Char → Option (List Char)
  | .idle, [], acc => some acc.reverse
  | .more _ _ _ _, [], _ => none
  | .idle, b :: bs, acc =>
    if b < 0x80 then decodeUtf8Go .idle bs (Char.ofNat b :: acc)
    else if b < 0xC2 then none
    else if b < 0xE0 then decodeUtf8Go (.more 1 (b - 0xC0) 0x80 0xBF) bs acc
    else if b < 0xF0 then
      decodeUtf8Go
        (.more 2 (b - 0xE0) (if b = 0xE0 then 0xA0 else 0x80)
          (if b = 0xED then 0x9F else 0xBF)) bs acc
    else if b < 0xF5 then
      decodeUtf8Go
        (.more 3 (b - 0xF0) (if b = 0xF0 then 0x90 else 0x80)
          (if b = 0xF4 then 0x8F else 0xBF)) bs acc
    else none
  | .more needed code lo hi, b :: bs, acc =>
    if lo ≤ b ∧ b ≤ hi then
      if needed ≤ 1 then
        decodeUtf8Go .idle bs (Char.ofNat (code * 64 + (b - 0x80)) :: acc)
      else
        decodeUtf8Go (.more (needed - 1) (code * 64 + (b - 0x80)) 0x80 0xBF)
          bs acc
    else none

/-- Strict UTF-8 decode of a whole byte sequence (`TextDecoder` with
`fatal: true`); `none` models the thrown `TypeError`. -/
def decodeUtf8 (bs : List Nat) : Option (List Char) := decodeUtf8Go .idle bs []

theorem decodeUtf8Go_encodeChar (c : Char) (bs : List Nat) (acc : List Char) :
    decodeUtf8Go .idle (utf8EncodeChar c ++ bs) acc =
      decodeUtf8Go .idle bs (c :: acc) := by
  have hv : c.toNat < 0xD800 ∨ (0xDFFF < c.toNat ∧ c.toNat < 0x110000) :=
    c.valid
  rcases Nat.lt_or_ge c.toNat 0x80 with h1 | h1
  · have he : utf8EncodeChar c = [c.toNat] := by
      rw [utf8EncodeChar]; rw [if_pos h1]
    rw [he, List.singleton_append, decodeUtf8Go, if_pos h1, Char.ofNat_toNat]
  · rcases Nat.lt_or_ge c.toNat 0x800 with h2 | h2
    · have hne : ¬ (c.toNat < 0x80) := by omega
      have he : utf8EncodeChar c =
          [0xC0 + c.toNat / 64, 0x80 + c.toNat % 64] := by
        rw [utf8EncodeChar]; rw [if_neg hne, if_pos h2]
      have hA : ¬ (0xC0 + c.toNat / 64 < 0x80) := by omega
      have hB : ¬ (0xC0 + c.toNat / 64 < 0xC2) := by omega
      have hC : 0xC0 + c.toNat / 64 < 0xE0 := by omega
      have hD : 0x80 ≤ 0x80 + c.toNat % 64 ∧ 0x80 + c.toNat % 64 ≤ 0xBF := by
        omega
      have hE : (1 : Nat) ≤ 1 := le_refl 1
      rw [he, List.cons_append, List.singleton_append, decodeUtf8Go,
        if_neg hA, if_neg hB, if_pos hC, decodeUtf8Go, if_pos hD, if_pos hE,
        show (0xC0 + c.toNat / 64 - 0xC0) * 64 + (0x80 + c.toNat % 64 - 0x80)
          = c.toNat from by omega, Char.ofNat_toNat]
    · rcases Nat.lt_or_ge c.toNat 0x10000 with h3 | h3
      · have hsur : c.toNat < 0xD800 ∨ 0xE000 ≤ c.toNat := by omega
        have hne1 : ¬ (c.toNat < 0x80) := by omega
        have hne2 : ¬ (c.toNat < 0x800) := by omega
        have he : utf8EncodeChar c =
            [0xE0 + c.toNat / 4096, 0x80 + c.toNat / 64 % 64,
              0x80 + c.toNat % 64] := by
          rw [utf8EncodeChar]
          rw [if_neg hne1, if_neg hne2, if_pos h3]
        have hA : ¬ (0xE0 + c.toNat / 4096 < 0x80) := by omega
        have hB : ¬ (0xE0 + c.toNat / 4096 < 0xC2) := by omega
        have hC : ¬ (0xE0 + c.toNat / 4096 < 0xE0) := by omega
        have hD : 0xE0 + c.toNat / 4096 < 0xF0 := by omega
        have hE : (if 0xE0 + c.toNat / 4096 = 0xE0 then 0xA0 else 0x80) ≤
            0x80 + c.toNat / 64 % 64 ∧ 0x80 + c.toNat / 64 % 64 ≤
            (if 0xE0 + c.toNat / 4096 = 0xED then 0x9F else 0xBF) := by
          constructor <;> split_ifs <;> omega
        have hF : ¬ ((2 : Nat) ≤ 1) := by omega
        have hG : (0x80 : Nat) ≤ 0x80 + c.toNat % 64 ∧
            0x80 + c.toNat % 64 ≤ 0xBF := by omega
        have hH : (1 : Nat) ≤ 1 := le_refl 1
        rw [he, List.cons_append, List.cons_append, List.singleton_append,
          decodeUtf8Go, if_neg hA, if_neg hB, if_neg hC, if_pos hD,
          decodeUtf8Go, if_pos hE, if_neg hF, decodeUtf8Go, if_pos hG,
          if_pos hH,
          show ((0xE0 + c.toNat / 4096 - 0xE0) * 64 +
              (0x80 + c.toNat / 64 % 64 - 0x80)) * 64 +
              (0x80 + c.toNat % 64 - 0x80) = c.toNat from by omega,
          Char.ofNat_toNat]
      · have h4 : c.toNat < 0x110000 := by omega
        have hne1 : ¬ (c.toNat < 0x80) := by omega
        have hne2 : ¬ (c.toNat < 0x800) := by omega
        have hne3 : ¬ (c.toNat < 0x10000) := by omega
        have he : utf8EncodeChar c =
            [0xF0 + c.toNat / 262144, 0x80 + c.toNat / 4096 % 64,
              0x80 + c.toNat / 64 % 64, 0x80 + c.toNat % 64] := by
          rw [utf8EncodeChar]
          rw [if_neg hne1, if_neg hne2, if_neg hne3]
        have hA : ¬ (0xF0 + c.toNat / 262144 < 0x80) := by omega
        have hB : ¬ (0xF0 + c.toNat / 262144 < 0xC2) := by omega
        have hC : ¬ (0xF0 + c.toNat / 262144 < 0xE0) := by omega
        have hD : ¬ (0xF0 + c.toNat / 262144 < 0xF0) := by omega
        have hD' : 0xF0 + c.toNat / 262144 < 0xF5 := by omega
        have hE : (if 0xF0 + c.toNat / 262144 = 0xF0 then 0x90 else 0x80) ≤
            0x80 + c.toNat / 4096 % 64 ∧ 0x80 + c.toNat / 4096 % 64 ≤
            (if 0xF0 + c.toNat / 262144 = 0xF4 then 0x8F else 0xBF) := by
          constructor <;> split_ifs <;> omega
        have hF : ¬ ((3 : Nat) ≤ 1) := by omega
        have hG : (0x80 : Nat) ≤ 0x80 + c.toNat / 64 % 64 ∧
            0x80 + c.toNat / 64 % 64 ≤ 0xBF := by omega
        have hH : ¬ ((3 - 1 : Nat) ≤ 1) := by omega
        have hI : (0x80 : Nat) ≤ 0x80 + c.toNat % 64 ∧
            0x80 + c.toNat % 64 ≤ 0xBF := by omega
        have hJ : (3 - 1 - 1 : Nat) ≤ 1 := by omega
        rw [he, List.cons_append, List.cons_append, List.cons_append,
          List.singleton_append, decodeUtf8Go, if_neg hA, if_neg hB,
          if_neg hC, if_neg hD, if_pos hD', decodeUtf8Go, if_pos hE,
          if_neg hF, decodeUtf8Go, if_pos hG, if_neg hH, decodeUtf8Go,
          if_pos hI, if_pos hJ,
          show (((0xF0 + c.toNat / 262144 - 0xF0) * 64 +
              (0x80 + c.toNat / 4096 % 64 - 0x80)) * 64 +
              (0x80 + c.toNat / 64 % 64 - 0x80)) * 64 +
              (0x80 + c.toNat % 64 - 0x80) = c.toNat from by omega,
          Char.ofNat_toNat]

theorem decodeUtf8Go_encode (s : List Char) (bs : List Nat) (acc : List Char) :
    decodeUtf8Go .idle (encodeUtf8 s ++ bs) acc =
      decodeUtf8Go .idle bs (s.reverse ++ acc) := by
  induction s generalizing acc with
  | nil => simp [encodeUtf8]
  | cons c cs ih =>
    rw [encodeUtf8, List.append_assoc, decodeUtf8Go_encodeChar, ih]
    simp

/-- Strict decoding inverts UTF-8 encoding on every well-formed text. -/
theorem decodeUtf8_encodeUtf8 (s : List Char) :
    decodeUtf8 (encodeUtf8 s) = some s := by
  have h := decodeUtf8Go_encode s [] []
  simpa [decodeUtf8, decodeUtf8Go] using h

/-! ## Data model: caller values, store entries, mappings

A caller-supplied file value is either a JavaScript string (text), a `Blob`
(binary payload with its byte content), or a value of any other shape
(`Value.other`, whose bytes cannot be read).  The named-file store
(`fileSystem: Map<string, File>`) maps path names to byte content plus the
informational read-only flag; JavaScript `Map`/object insertion semantics
(update the existing key in place, otherwise append) are modelled on
association lists. -/

/-- A caller-side file value: text, binary payload, or any other shape. -/
inductive Value where
  | str (s : String)
  | blob (b : Bytes)
  | other
deriving DecidableEq

/-- Error taxonomy of the bridge: a file value of unsupported shape
(rejected while normalizing, before the module is invoked), or a
diagnostics stream that is not valid UTF-8 (strict decode throws). -/
inductive JsError where
  | unsupportedValueKind
  | malformedDiagnostics
deriving DecidableEq

/-- A store entry: byte payload plus the informational read-only flag
(`new File(uint8Array, {readonly})`). -/
structure FileEntry where
  data : Bytes
  readonly : Bool
deriving DecidableEq

/-- The named-file store (`fileSystem` map). -/
abbrev Store := List (String × FileEntry)

/-- A JavaScript object used as a string-keyed file mapping. -/
abbrev Obj := List (String × Value)

/-- `Map.prototype.set` / object property assignment: overwrite the
existing key in place, otherwise append. -/
def Store.set : Store → String → FileEntry → Store
  | [], k, v => [(k, v)]
  | (k', v') :: rest, k, v =>
    if k' = k then (k, v) :: rest else (k', v') :: Store.set rest k v

/-- `Map.prototype.get`: the entry at a key, if present. -/
def Store.get? : Store → String → Option FileEntry
  | [], _ => none
  | (k', v) :: rest, k => if k' = k then some v else Store.get? rest k

/-- Object property assignment (`files[name] = value`). -/
def Obj.set : Obj → String → Value → Obj
  | [], k, v => [(k, v)]
  | (k', v') :: rest, k, v =>
    if k' = k then (k, v) :: rest else (k', v') :: Obj.set rest k v

/-- Object property read (`files[name]`). -/
def Obj.get? : Obj → String → Option Value
  | [], _ => none
  | (k', v) :: rest, k => if k' = k then some v else Obj.get? rest k

/-! ## Payload normalizer (`addFile`, `toUint8Array`, `convertData`) -/

/-- `toUint8Array` (`src/core.js` lines 258–275): a string is encoded as
UTF-8; a `Blob`'s bytes are read as-is; any other shape throws the
"Unsupported type" error. -/
def toUint8Array : Value → Except JsError Bytes
  | .str s => .ok (encodeUtf8 s.data)
  | .blob b => .ok b
  | .other => .error .unsupportedValueKind

/-- `addFile` (`src/core.js` lines 63–77): normalize the value to bytes
(strings via `TextEncoder`, everything else read as a `Blob` — a value of
any other shape has no readable bytes and the read throws before the
module is invoked) and insert a fresh `File` into the store. -/
def addFile (fs : Store) (filename : String) (data : Value)
    (readonly : Bool) : Except JsError Store :=
  match data with
  | .str s => .ok (fs.set filename ⟨encodeUtf8 s.data, readonly⟩)
  | .blob b => .ok (fs.set filename ⟨b, readonly⟩)
  | .other => .error .unsupportedValueKind

/-- `convertData` (`src/core.js` lines 279–289): attempt a strict UTF-8
decode; on success return the text, on failure return the bytes as a
`Blob`. -/
def convertData (data : Bytes) : Value :=
  match decodeUtf8 data with
  | some cs => .str ⟨cs⟩
  | none => .blob data

/-! ## Run session: seeding, invocation, harvesting, classification -/

/-- The two option keys the bridge itself reads out of the option mapping
(`options["output-file"]`, `options["extract-media"]`); `none` models an
absent key.  All other options are passed through opaquely to the module. -/
structure Options where
  outputFile : Option String
  extractMedia : Option String
deriving DecidableEq

/-- JavaScript `String.prototype.endsWith(suffix)`: the string's character
sequence ends with the suffix's character sequence. -/
def jsEndsWith (s suffix : String) : Bool :=
  suffix.data == s.data.drop (s.data.length - suffix.data.length)

/-- JavaScript `options[key] || null`: an absent key and an empty-string
value are both falsy and collapse to `null`. -/
def jsOrNull : Option String → Option String
  | some s => if s = "" then none else some s
  | none => none

/-- The seeding loop over caller files (`for (const filename in files)`
at `src/core.js` lines 154–157): each file is normalized and inserted
read-only, and its path is added to `knownFiles`. -/
def seedInputs (fs : Store) (known : List String) :
    Obj → Except JsError (Store × List String)
  | [] => .ok (fs, known)
  | (filename, v) :: rest =>
    match addFile fs filename v true with
    | .error e => .error e
    | .ok fs' => seedInputs fs' (known ++ [filename]) rest

/-- Result of the seeding phase: the seeded store, the `knownFiles` set
(as a list), and the defensive shallow copy of the caller's file
mapping. -/
structure SeedResult where
  store : Store
  known : List String
  files : Obj
deriving DecidableEq

/-- The seeding phase of `convert` (`src/core.js` lines 130–183): reset
the store; insert the four system paths; insert every caller file
(read-only) recording its path in `knownFiles`; insert an empty writable
placeholder for the declared output path (if truthy), recording it; insert
an empty writable placeholder for the extraction target (if truthy),
recording it only when it ends in `".zip"` (`extractMediaPath.endsWith(".zip")`); finally write the stdin
payload (if truthy) into the `"stdin"` entry.  Placeholder insertion is
`addFile(path, new Blob(), false)`, which never fails; it is inlined as
its result (see `addFile_blob`). -/
def seedPhase (options : Options) (stdin : Option String) (files0 : Obj) :
    Except JsError SeedResult :=
  let fs : Store := [("stdin", ⟨[], true⟩), ("stdout", ⟨[], false⟩),
    ("stderr", ⟨[], false⟩), ("warnings", ⟨[], false⟩)]
  let known : List String := ["stdin", "stdout", "stderr", "warnings"]
  match seedInputs fs known files0 with
  | .error e => .error e
  | .ok (fs, known) =>
    let outputFileName := jsOrNull options.outputFile
    let extractMediaPath := jsOrNull options.extractMedia
    let p1 : Store × List String :=
      match outputFileName with
      | some o => (fs.set o ⟨[], false⟩, known ++ [o])
      | none => (fs, known)
    let p2 : Store × List String :=
      match extractMediaPath with
      | some m => (p1.1.set m ⟨[], false⟩,
          if jsEndsWith m ".zip" then p1.2 ++ [m] else p1.2)
      | none => p1
    let fs2 : Store :=
      match stdin with
      | some s => if s = "" then p2.1
          else p2.1.set "stdin" ⟨encodeUtf8 s.data, true⟩
      | none => p2.1
    .ok ⟨fs2, p2.2, files0⟩

/-- `addFile` with an empty `Blob` placeholder never fails. -/
theorem addFile_blob (fs : Store) (filename : String) (b : Bytes)
    (ro : Bool) : addFile fs filename (.blob b) ro =
      .ok (fs.set filename ⟨b, ro⟩) := rfl

/-- Reading a stream entry's bytes from the post-run store (the module
writes through the store; a path it never touched still holds the seeded
empty content). -/
def readData (post : Store) (name : String) : Bytes :=
  match post.get? name with
  | some e => e.data
  | none => []

/-- One harvesting step (`src/core.js` lines 188–211): if the option is
truthy and the corresponding store entry exists with non-empty content,
materialize it into the result file mapping as a `Blob` under its own
path. -/
def harvestOne (post : Store) (path : Option String) (files : Obj) : Obj :=
  match path with
  | some p =>
    match post.get? p with
    | some e => if e.data.length > 0 then files.set p (.blob e.data) else files
    | none => files
  | none => files

/-- Harvest the declared output path, then the extraction target
(`src/core.js` lines 188–211). -/
def harvestDeclared (options : Options) (post : Store) (files : Obj) : Obj :=
  harvestOne post (jsOrNull options.extractMedia)
    (harvestOne post (jsOrNull options.outputFile) files)

/-- The known-set classifier loop (`src/core.js` lines 215–230): walk the
post-run store entries; every entry with non-empty content whose path is
not in `knownFiles` is added to the result file mapping as a `Blob`, and
also to `mediaFiles` unless its path equals the declared output path or
the extraction target (`name !== outputFileName && name !==
extractMediaPath`; a string never strictly equals `null`). -/
def classify (known : List String) (o x : Option String) :
    Store → Obj → Obj → Obj × Obj
  | [], files, media => (files, media)
  | (name, e) :: rest, files, media =>
    if ¬ name ∈ known ∧ e.data ≠ [] then
      let blob := Value.blob e.data
      classify known o x rest (files.set name blob)
        (if o ≠ some name ∧ x ≠ some name then media.set name blob else media)
    else classify known o x rest files media

/-- The result object of one `convert` run.  `W` is the type of structured
warning records produced by `JSON.parse` of the warnings stream. -/
structure RunResult (W : Type) where
  stdout : String
  stderr : String
  warnings : List W
  files : Obj
  mediaFiles : Obj
deriving DecidableEq

/-- The `convert` pipeline (`src/core.js` lines 116–256).  `jsonParse`
models `JSON.parse` specialized to the warnings stream (`none` covers a
parse throw — and a parse not yielding a record list); `run` models the
opaque conversion module `instance.exports.convert` acting on the store.
After seeding, the module runs once; the declared output and extraction
target are harvested; the classifier partitions the post-run store; the
warnings stream is decoded strictly and parsed best-effort (a parse
failure degrades to an empty list); the stdout/stderr streams are decoded
strictly into the result. -/
def convert {W : Type} (jsonParse : String → Option (List W))
    (run : Store → Store) (options : Options) (stdin : Option String)
    (files0 : Obj) : Except JsError (RunResult W) :=
  match seedPhase options stdin files0 with
  | .error e => .error e
  | .ok seed =>
    let post := run seed.store
    let files1 := harvestDeclared options post seed.files
    let fm := classify seed.known (jsOrNull options.outputFile)
      (jsOrNull options.extractMedia) post files1 []
    match decodeUtf8 (readData post "warnings") with
    | none => .error .malformedDiagnostics
    | some wcs =>
      let rawWarnings : String := ⟨wcs⟩
      let warnings : List W :=
        if rawWarnings ≠ "" then
          match jsonParse rawWarnings with
          | some w => w
          | none => []
        else []
      match decodeUtf8 (readData post "stdout") with
      | none => .error .malformedDiagnostics
      | some ocs =>
        match decodeUtf8 (readData post "stderr") with
        | none => .error .malformedDiagnostics
        | some ecs => .ok ⟨⟨ocs⟩, ⟨ecs⟩, warnings, fm.1, fm.2⟩

/-- The four fixed system paths. -/
def sysPaths : List String := ["stdin", "stdout", "stderr", "warnings"]

/-- The KnownPathSet of a run: the four system paths, every caller-supplied
input path, the declared output path (when truthy), and the extraction
target only in archive (`.zip`) form.  `seedPhase_known` proves this is
exactly the `knownFiles` set the seeding phase records. -/
def knownPathSet (options : Options) (files0 : Obj) : List String :=
  sysPaths ++ files0.map Prod.fst ++
    (match jsOrNull options.outputFile with
      | some o => [o]
      | none => []) ++
    (match jsOrNull options.extractMedia with
      | some m => if jsEndsWith m ".zip" then [m] else []
      | none => [])

/-! ## Helper lemmas about the mappings, the classifier and the phases -/

theorem Obj.get?_set_self (o : Obj) (k : String) (v : Value) :
    (o.set k v).get? k = some v := by
  induction o with
  | nil => simp [Obj.set, Obj.get?]
  | cons p rest ih =>
    by_cases h : p.1 = k
    · simp [Obj.set, h, Obj.get?]
    · simp [Obj.set, h, Obj.get?, ih]

theorem Obj.get?_set_ne (o : Obj) (k k' : String) (v : Value)
    (h : k ≠ k') : (o.set k v).get? k' = o.get? k' := by
  induction o with
  | nil => simp [Obj.set, Obj.get?, h]
  | cons p rest ih =>
    by_cases hp : p.1 = k
    · simp [Obj.set, hp, Obj.get?, h]
    · simp only [Obj.set, if_neg hp, Obj.get?, ih]

theorem Obj.get?_eq_none (o : Obj) (k : String)
    (h : k ∉ o.map Prod.fst) : o.get? k = none := by
  induction o with
  | nil => rfl
  | cons p rest ih =>
    obtain ⟨k', v⟩ := p
    simp only [List.map_cons, List.mem_cons, not_or] at h
    rw [Obj.get?, if_neg (fun he => h.1 he.symm)]
    exact ih h.2

theorem Store.get?_set_self_entry (fs : Store) (k : String) (e : FileEntry) :
    (fs.set k e).get? k = some e := by
  induction fs with
  | nil => simp [Store.set, Store.get?]
  | cons p rest ih =>
    by_cases h : p.1 = k
    · simp [Store.set, h, Store.get?]
    · simp [Store.set, h, Store.get?, ih]

theorem Store.get?_set_ne_entry (fs : Store) (k k' : String) (e : FileEntry)
    (h : k ≠ k') : (fs.set k e).get? k' = fs.get? k' := by
  induction fs with
  | nil => simp [Store.set, Store.get?, h]
  | cons p rest ih =>
    by_cases hp : p.1 = k
    · simp [Store.set, hp, Store.get?, h]
    · simp only [Store.set, if_neg hp, Store.get?, ih]

/-- The classifier does not touch any path absent from the entry list. -/
theorem classify_get?_not_mem (known : List String) (o x : Option String)
    (entries : Store) (files media : Obj) (name : String)
    (h : name ∉ entries.map Prod.fst) :
    (classify known o x entries files media).1.get? name =
        files.get? name ∧
      (classify known o x entries files media).2.get? name =
        media.get? name := by
  induction entries generalizing files media with
  | nil => exact ⟨rfl, rfl⟩
  | cons p rest ih =>
    obtain ⟨n, e⟩ := p
    simp only [List.map_cons, List.mem_cons, not_or] at h
    have hne : n ≠ name := fun he => h.1 he.symm
    rw [classify]
    by_cases hc : ¬ n ∈ known ∧ e.data ≠ []
    · rw [if_pos hc]
      have := ih (files.set n (.blob e.data))
        (if o ≠ some n ∧ x ≠ some n
          then media.set n (.blob e.data) else media) h.2
      rw [this.1, this.2, Obj.get?_set_ne _ _ _ _ hne]
      refine ⟨rfl, ?_⟩
      by_cases hm : o ≠ some n ∧ x ≠ some n
      · rw [if_pos hm, Obj.get?_set_ne _ _ _ _ hne]
      · rw [if_neg hm]
    · rw [if_neg hc]
      exact ih files media h.2

/-- The classifier does not touch any path in the known set. -/
theorem classify_get?_known (known : List String) (o x : Option String)
    (entries : Store) (files media : Obj) (name : String)
    (h : name ∈ known) :
    (classify known o x entries files media).1.get? name =
        files.get? name ∧
      (classify known o x entries files media).2.get? name =
        media.get? name := by
  induction entries generalizing files media with
  | nil => exact ⟨rfl, rfl⟩
  | cons p rest ih =>
    obtain ⟨n, e⟩ := p
    rw [classify]
    by_cases hc : ¬ n ∈ known ∧ e.data ≠ []
    · have hne : n ≠ name := fun he => hc.1 (he ▸ h)
      rw [if_pos hc]
      have := ih (files.set n (.blob e.data))
        (if o ≠ some n ∧ x ≠ some n
          then media.set n (.blob e.data) else media)
      rw [this.1, this.2, Obj.get?_set_ne _ _ _ _ hne]
      refine ⟨rfl, ?_⟩
      by_cases hm : o ≠ some n ∧ x ≠ some n
      · rw [if_pos hm, Obj.get?_set_ne _ _ _ _ hne]
      · rw [if_neg hm]
    · rw [if_neg hc]
      exact ih files media

/-- Classification of an entry that is not in the known set and has
non-empty content (the path names in the entry list are distinct, as they
are the keys of a JavaScript `Map`). -/
theorem classify_get?_new (known : List String) (o x : Option String)
    (entries : Store) (files media : Obj) (name : String) (e : FileEntry)
    (hmem : (name, e) ∈ entries) (hnodup : (entries.map Prod.fst).Nodup)
    (hnk : name ∉ known) (hdata : e.data ≠ []) :
    (classify known o x entries files media).1.get? name =
        some (.blob e.data) ∧
      ((o ≠ some name ∧ x ≠ some name) →
        (classify known o x entries files media).2.get? name =
          some (.blob e.data)) ∧
      ((o = some name ∨ x = some name) →
        (classify known o x entries files media).2.get? name =
          media.get? name) := by
  induction entries generalizing files media with
  | nil => cases hmem
  | cons p rest ih =>
    obtain ⟨n, e'⟩ := p
    simp only [List.map_cons, List.nodup_cons] at hnodup
    rcases List.mem_cons.mp hmem with heq | htail
    · injection heq with hn he
      subst hn; subst he
      rw [classify, if_pos ⟨hnk, hdata⟩]
      have hrest : name ∉ rest.map Prod.fst := hnodup.1
      have hnt := classify_get?_not_mem known o x rest
        (files.set name (.blob e.data))
        (if o ≠ some name ∧ x ≠ some name
          then media.set name (.blob e.data) else media) name hrest
      refine ⟨?_, ?_, ?_⟩
      · rw [hnt.1, Obj.get?_set_self]
      · intro hm
        rw [hnt.2, if_pos hm, Obj.get?_set_self]
      · intro hm
        have hm' : ¬ (o ≠ some name ∧ x ≠ some name) := by
          rcases hm with hm | hm <;> simp [hm]
        rw [hnt.2, if_neg hm']
    · have hne : n ≠ name := by
        intro he
        exact hnodup.1 (he ▸ (List.mem_map.mpr ⟨(name, e), htail, rfl⟩))
      rw [classify]
      by_cases hc : ¬ n ∈ known ∧ e'.data ≠ []
      · rw [if_pos hc]
        have := ih (files.set n (.blob e'.data))
          (if o ≠ some n ∧ x ≠ some n
            then media.set n (.blob e'.data) else media) htail hnodup.2
        refine ⟨this.1, this.2.1, fun hm => ?_⟩
        rw [this.2.2 hm]
        by_cases hm2 : o ≠ some n ∧ x ≠ some n
        · rw [if_pos hm2, Obj.get?_set_ne _ _ _ _ hne]
        · rw [if_neg hm2]
      · rw [if_neg hc]
        exact ih files media htail hnodup.2

/-- Invariant carried by the classifier loop: every binding of the media
mapping is also a binding of the file mapping, its path is not known, and
it is neither the declared output nor the extraction target. -/
theorem classify_media_sub (known : List String) (o x : Option String)
    (entries : Store) (files media : Obj)
    (hinv : ∀ n v, media.get? n = some v →
      files.get? n = some v ∧ n ∉ known ∧ o ≠ some n ∧ x ≠ some n) :
    ∀ n v, (classify known o x entries files media).2.get? n = some v →
      (classify known o x entries files media).1.get? n = some v ∧
        n ∉ known ∧ o ≠ some n ∧ x ≠ some n := by
  induction entries generalizing files media with
  | nil => exact hinv
  | cons p rest ih =>
    obtain ⟨nm, e⟩ := p
    rw [classify]
    by_cases hc : ¬ nm ∈ known ∧ e.data ≠ []
    · rw [if_pos hc]
      apply ih
      intro n v hv
      by_cases heq : nm = n
      · subst heq
        by_cases hm : o ≠ some nm ∧ x ≠ some nm
        · rw [if_pos hm, Obj.get?_set_self] at hv
          exact ⟨by rw [Obj.get?_set_self, ← hv], hc.1, hm.1, hm.2⟩
        · rw [if_neg hm] at hv
          have := hinv nm v hv
          exact absurd ⟨this.2.2.1, this.2.2.2⟩ hm
      · have hv' : media.get? n = some v := by
          by_cases hm : o ≠ some nm ∧ x ≠ some nm
          · rw [if_pos hm, Obj.get?_set_ne _ _ _ _ heq] at hv
            exact hv
          · rw [if_neg hm] at hv
            exact hv
        have := hinv n v hv'
        exact ⟨by rw [Obj.get?_set_ne _ _ _ _ heq]; exact this.1,
          this.2.1, this.2.2.1, this.2.2.2⟩
    · rw [if_neg hc]
      exact ih files media hinv

theorem seedInputs_ok_known (l : Obj) (fs : Store) (known : List String)
    (fs' : Store) (known' : List String)
    (h : seedInputs fs known l = .ok (fs', known')) :
    known' = known ++ l.map Prod.fst := by
  induction l generalizing fs known with
  | nil =>
    simp only [seedInputs] at h
    injection h with h
    injection h with h1 h2
    simp [← h2]
  | cons p rest ih =>
    obtain ⟨filename, v⟩ := p
    rw [seedInputs] at h
    cases hadd : addFile fs filename v true with
    | error e => rw [hadd] at h; cases h
    | ok fs2 =>
      rw [hadd] at h
      have := ih fs2 (known ++ [filename]) h
      simp [this]

theorem seedPhase_ok_known (options : Options) (stdin : Option String)
    (files0 : Obj) (seed : SeedResult)
    (h : seedPhase options stdin files0 = .ok seed) :
    seed.known = knownPathSet options files0 ∧ seed.files = files0 := by
  rw [seedPhase] at h
  cases hs : seedInputs [("stdin", ⟨[], true⟩), ("stdout", ⟨[], false⟩),
      ("stderr", ⟨[], false⟩), ("warnings", ⟨[], false⟩)]
      ["stdin", "stdout", "stderr", "warnings"] files0 with
  | error e => rw [hs] at h; cases h
  | ok p =>
    obtain ⟨fs1, known1⟩ := p
    rw [hs] at h
    have hk1 := seedInputs_ok_known files0 _ _ fs1 known1 hs
    simp only [] at h
    injection h with h
    subst h
    simp only [knownPathSet, sysPaths]
    refine ⟨?_, trivial⟩
    cases ho : jsOrNull options.outputFile with
    | none =>
      cases hx : jsOrNull options.extractMedia with
      | none => simp [hk1]
      | some m =>
        by_cases hz : jsEndsWith m ".zip" <;> simp [hk1, hz]
    | some o =>
      cases hx : jsOrNull options.extractMedia with
      | none => simp [hk1]
      | some m =>
        by_cases hz : jsEndsWith m ".zip" <;> simp [hk1, hz]

/-- Any caller file value of unsupported shape aborts seeding with
`UnsupportedValueKind`. -/
theorem seedInputs_error_of_other (l : Obj) (fs : Store)
    (known : List String) (name : String)
    (hmem : (name, Value.other) ∈ l) :
    seedInputs fs known l = .error .unsupportedValueKind := by
  induction l generalizing fs known with
  | nil => cases hmem
  | cons p rest ih =>
    obtain ⟨filename, v⟩ := p
    rcases List.mem_cons.mp hmem with heq | htail
    · injection heq with hn hv
      subst hv
      rw [seedInputs]
      rfl
    · rw [seedInputs]
      cases v with
      | str s => exact ih _ _ htail
      | blob b => exact ih _ _ htail
      | other => rfl

/-- Decomposition of a successful `convert` run: the result's file and
media mappings are exactly what the classifier computes from the post-run
store, starting from the harvested copy of the caller mapping, using the
known set recorded at seeding time. -/
theorem convert_ok_decomp {W : Type} (jsonParse : String → Option (List W))
    (run : Store → Store) (options : Options) (stdin : Option String)
    (files0 : Obj) (res : RunResult W)
    (h : convert jsonParse run options stdin files0 = .ok res) :
    ∃ seed, seedPhase options stdin files0 = .ok seed ∧
      res.files = (classify seed.known (jsOrNull options.outputFile)
        (jsOrNull options.extractMedia) (run seed.store)
        (harvestDeclared options (run seed.store) seed.files) []).1 ∧
      res.mediaFiles = (classify seed.known (jsOrNull options.outputFile)
        (jsOrNull options.extractMedia) (run seed.store)
        (harvestDeclared options (run seed.store) seed.files) []).2 := by
  rw [convert] at h
  cases hs : seedPhase options stdin files0 with
  | error e => rw [hs] at h; cases h
  | ok seed =>
    rw [hs] at h
    refine ⟨seed, rfl, ?_⟩
    simp only [] at h
    cases hw : decodeUtf8 (readData (run seed.store) "warnings") with
    | none => rw [hw] at h; cases h
    | some wcs =>
      rw [hw] at h
      cases ho : decodeUtf8 (readData (run seed.store) "stdout") with
      | none => rw [ho] at h; cases h
      | some ocs =>
        rw [ho] at h
        cases he : decodeUtf8 (readData (run seed.store) "stderr") with
        | none => rw [he] at h; cases h
        | some ecs =>
          rw [he] at h
          injection h with h
          subst h
          exact ⟨rfl, rfl⟩

/-- Harvesting at a declared path does not touch any other path. -/
theorem harvestOne_get?_ne (post : Store) (path : Option String)
    (files : Obj) (name : String) (h : path ≠ some name) :
    Obj.get? (harvestOne post path files) name = Obj.get? files name := by
  cases path with
  | none => rfl
  | some p =>
    have hp : p ≠ name := fun he => h (by rw [he])
    rw [harvestOne]
    cases hg : Store.get? post p with
    | none => rfl
    | some e =>
      show Obj.get? (if e.data.length > 0
        then Obj.set files p (.blob e.data) else files) name =
          Obj.get? files name
      by_cases hd : e.data.length > 0
      · rw [if_pos hd]
        exact Obj.get?_set_ne files p name (.blob e.data) hp
      · rw [if_neg hd]

/-- Harvesting a declared path with a non-empty store entry materializes
that entry as a `Blob`. -/
theorem harvestOne_get?_self (post : Store) (p : String) (files : Obj)
    (e : FileEntry) (hg : Store.get? post p = some e) (hd : e.data ≠ []) :
    Obj.get? (harvestOne post (some p) files) p = some (.blob e.data) := by
  rw [harvestOne, hg]
  show Obj.get? (if e.data.length > 0
    then Obj.set files p (.blob e.data) else files) p =
      some (.blob e.data)
  rw [if_pos (by cases hdata : e.data with
    | nil => exact absurd hdata hd
    | cons a l => simp [hdata]), Obj.get?_set_self]

/-- On a store with distinct keys, membership determines `get?`. -/
theorem Store.get?_of_mem_nodup (fs : Store) (name : String) (e : FileEntry)
    (hmem : (name, e) ∈ fs) (hnodup : (fs.map Prod.fst).Nodup) :
    Store.get? fs name = some e := by
  induction fs with
  | nil => cases hmem
  | cons p rest ih =>
    obtain ⟨n, e'⟩ := p
    simp only [List.map_cons, List.nodup_cons] at hnodup
    rcases List.mem_cons.mp hmem with heq | htail
    · injection heq with hn he
      subst hn; subst he
      rw [Store.get?, if_pos rfl]
    · have hne : n ≠ name := by
        intro he
        exact hnodup.1 (he ▸ (List.mem_map.mpr ⟨(name, e), htail, rfl⟩))
      rw [Store.get?, if_neg hne]
      exact ih htail hnodup.2

/-- A string is never equal to itself extended by a slash and a suffix. -/
theorem ne_append_slash (m r : String) : m ≠ m ++ "/" ++ r := by
  intro he
  have hlen := congrArg String.length he
  rw [String.length_append, String.length_append] at hlen
  have h1 : "/".length = 1 := rfl
  omega

/-! ## Claim theorems -/

/-- C7: for every text payload `T`, decoding the UTF-8 encoding of `T`
yields `T` exactly: `fromBytes(toBytes(T)) == T` for all valid text inputs
(all JavaScript strings of Unicode scalar values). -/
theorem fromBytes_toBytes_roundtrip (s : String) :
    (toUint8Array (.str s)).map convertData = .ok (.str s) := by
  show Except.ok (convertData (encodeUtf8 s.data)) = .ok (.str s)
  rw [convertData, decodeUtf8_encodeUtf8]

/-- C9: an empty string supplied as `options["output-file"]` or
`options["extract-media"]` is falsy and is treated exactly as an absent
option, independently for each of the two options (the other option held
arbitrary): the whole run — seeding (no placeholder), known-path
recording, and harvesting — coincides with the run on the corresponding
absent option. -/
theorem empty_string_options_absent {W : Type}
    (jsonParse : String → Option (List W)) (run : Store → Store)
    (stdin : Option String) (files0 : Obj) (out x : Option String) :
    (convert jsonParse run ⟨some "", x⟩ stdin files0 =
        convert jsonParse run ⟨none, x⟩ stdin files0 ∧
      seedPhase ⟨some "", x⟩ stdin files0 =
        seedPhase ⟨none, x⟩ stdin files0 ∧
      knownPathSet ⟨some "", x⟩ files0 =
        knownPathSet ⟨none, x⟩ files0) ∧
    (convert jsonParse run ⟨out, some ""⟩ stdin files0 =
        convert jsonParse run ⟨out, none⟩ stdin files0 ∧
      seedPhase ⟨out, some ""⟩ stdin files0 =
        seedPhase ⟨out, none⟩ stdin files0 ∧
      knownPathSet ⟨out, some ""⟩ files0 =
        knownPathSet ⟨out, none⟩ files0) :=
  ⟨⟨rfl, rfl, rfl⟩, ⟨rfl, rfl, rfl⟩⟩

/-- C6: normalizing a caller file value encodes text as UTF-8 and reads a
binary payload's bytes as-is; a value of any other shape fails with the
`UnsupportedValueKind` error, raised before the conversion module is
invoked (the error is independent of `run`). -/
theorem normalize_value_bytes {W : Type}
    (jsonParse : String → Option (List W)) (run : Store → Store)
    (options : Options) (stdin : Option String) (files0 : Obj)
    (s : String) (b : Bytes) (name : String)
    (hmem : (name, Value.other) ∈ files0) :
    toUint8Array (.str s) = .ok (encodeUtf8 s.data) ∧
      toUint8Array (.blob b) = .ok b ∧
      toUint8Array .other = .error .unsupportedValueKind ∧
      convert jsonParse run options stdin files0 =
        .error .unsupportedValueKind := by
  refine ⟨rfl, rfl, rfl, ?_⟩
  simp only [convert, seedPhase]
  rw [seedInputs_error_of_other files0 _ _ name hmem]

/-- C6 witness: a concrete unsupported value aborts a concrete run before
invocation. -/
theorem normalize_value_bytes_witness :
    ("f", Value.other) ∈ ([("f", Value.other)] : Obj) ∧
      (toUint8Array (.str "a") = .ok (encodeUtf8 "a".data) ∧
        toUint8Array (.blob [0]) = .ok [0] ∧
        toUint8Array .other = .error .unsupportedValueKind ∧
        convert (fun _ => (none : Option (List Unit))) id ⟨none, none⟩ none
          [("f", Value.other)] = .error .unsupportedValueKind) :=
  ⟨by decide, normalize_value_bytes (fun _ => none) id ⟨none, none⟩ none
    [("f", Value.other)] "a" [0] "f" (by decide)⟩

/-- C4: the KnownPathSet is fully determined at seeding time from the
options and the caller files alone (`knownPathSet options files0` — a
function independent of the module `run`), and post-run classification of
every store entry is exactly the classifier applied with this
pre-invocation set, comparing the declared-output and extraction-target
paths by string equality against the seeding-time option values
(`jsOrNull` of the options). -/
theorem knownPathSet_preinvocation_classification {W : Type}
    (jsonParse : String → Option (List W)) (run : Store → Store)
    (options : Options) (stdin : Option String) (files0 : Obj)
    (res : RunResult W)
    (h : convert jsonParse run options stdin files0 = .ok res) :
    ∃ seed, seedPhase options stdin files0 = .ok seed ∧
      seed.known = knownPathSet options files0 ∧
      seed.files = files0 ∧
      res.files = (classify (knownPathSet options files0)
        (jsOrNull options.outputFile) (jsOrNull options.extractMedia)
        (run seed.store)
        (harvestDeclared options (run seed.store) files0) []).1 ∧
      res.mediaFiles = (classify (knownPathSet options files0)
        (jsOrNull options.outputFile) (jsOrNull options.extractMedia)
        (run seed.store)
        (harvestDeclared options (run seed.store) files0) []).2 := by
  obtain ⟨seed, hseed, hf, hm⟩ :=
    convert_ok_decomp jsonParse run options stdin files0 res h
  obtain ⟨hk, hfi⟩ := seedPhase_ok_known options stdin files0 seed hseed
  exact ⟨seed, hseed, hk, hfi, by rw [hf, hk, hfi], by rw [hm, hk, hfi]⟩

/-- C4 witness: concrete instantiation of the classification
decomposition. -/
theorem knownPathSet_preinvocation_classification_witness :
    convert (fun _ => (none : Option (List Unit)))
        (fun fs => Store.set fs "img.png" ⟨[1], false⟩) ⟨none, none⟩ none [] =
      .ok ⟨"", "", [], [("img.png", .blob [1])], [("img.png", .blob [1])]⟩ ∧
    ∃ seed, seedPhase ⟨none, none⟩ none [] = .ok seed ∧
      seed.known = knownPathSet ⟨none, none⟩ [] ∧
      seed.files = [] ∧
      (RunResult.files ⟨"", "", ([] : List Unit), [("img.png", .blob [1])],
          [("img.png", .blob [1])]⟩) =
        (classify (knownPathSet ⟨none, none⟩ [])
          (jsOrNull (Options.outputFile ⟨none, none⟩))
          (jsOrNull (Options.extractMedia ⟨none, none⟩))
          ((fun fs => Store.set fs "img.png" ⟨[1], false⟩) seed.store)
          (harvestDeclared ⟨none, none⟩
            ((fun fs => Store.set fs "img.png" ⟨[1], false⟩) seed.store) [])
          []).1 ∧
      (RunResult.mediaFiles ⟨"", "", ([] : List Unit), [("img.png", .blob [1])],
          [("img.png", .blob [1])]⟩) =
        (classify (knownPathSet ⟨none, none⟩ [])
          (jsOrNull (Options.outputFile ⟨none, none⟩))
          (jsOrNull (Options.extractMedia ⟨none, none⟩))
          ((fun fs => Store.set fs "img.png" ⟨[1], false⟩) seed.store)
          (harvestDeclared ⟨none, none⟩
            ((fun fs => Store.set fs "img.png" ⟨[1], false⟩) seed.store) [])
          []).2 :=
  ⟨by decide, knownPathSet_preinvocation_classification
    (fun _ => none) (fun fs => Store.set fs "img.png" ⟨[1], false⟩)
    ⟨none, none⟩ none []
    ⟨"", "", [], [("img.png", .blob [1])], [("img.png", .blob [1])]⟩
    (by decide)⟩

/-- C10: after every successful run, `mediaFiles` is a submapping of
`files` (same path, same value), and never contains any of the four system
paths. -/
theorem mediaFiles_submapping_of_files {W : Type}
    (jsonParse : String → Option (List W)) (run : Store → Store)
    (options : Options) (stdin : Option String) (files0 : Obj)
    (res : RunResult W)
    (h : convert jsonParse run options stdin files0 = .ok res) :
    ∀ name v, res.mediaFiles.get? name = some v →
      res.files.get? name = some v ∧ name ∉ sysPaths := by
  obtain ⟨seed, hseed, hf, hm⟩ :=
    convert_ok_decomp jsonParse run options stdin files0 res h
  intro name v hv
  rw [hm] at hv
  have hbase : ∀ n v', Obj.get? ([] : Obj) n = some v' →
      Obj.get? (harvestDeclared options (run seed.store) seed.files) n =
          some v' ∧ n ∉ seed.known ∧
        jsOrNull options.outputFile ≠ some n ∧
        jsOrNull options.extractMedia ≠ some n := by
    intro n v' h'
    simp [Obj.get?] at h'
  have hsub := classify_media_sub seed.known (jsOrNull options.outputFile)
    (jsOrNull options.extractMedia) (run seed.store)
    (harvestDeclared options (run seed.store) seed.files) [] hbase name v hv
  refine ⟨by rw [hf]; exact hsub.1, fun hmem => hsub.2.1 ?_⟩
  rw [(seedPhase_ok_known options stdin files0 seed hseed).1]
  simp [knownPathSet, hmem]

/-- C10 witness: concrete submapping instance. -/
theorem mediaFiles_submapping_of_files_witness :
    convert (fun _ => (none : Option (List Unit)))
        (fun fs => Store.set fs "img.png" ⟨[1], false⟩) ⟨none, none⟩ none [] =
      .ok ⟨"", "", [], [("img.png", .blob [1])], [("img.png", .blob [1])]⟩ ∧
    Obj.get? [("img.png", Value.blob [1])] "img.png" =
      some (Value.blob [1]) ∧
    (Obj.get? [("img.png", Value.blob [1])] "img.png" = some (.blob [1]) ∧
      "img.png" ∉ sysPaths) := by
  refine ⟨by decide, by decide, ?_⟩
  exact mediaFiles_submapping_of_files (fun _ => (none : Option (List Unit)))
    (fun fs => Store.set fs "img.png" ⟨[1], false⟩) ⟨none, none⟩ none []
    ⟨"", "", [], [("img.png", .blob [1])], [("img.png", .blob [1])]⟩
    (by decide) "img.png" (.blob [1]) (by decide)

/-- C1: every post-run store entry with non-empty content whose path is
absent from the KnownPathSet is included (as a `Blob` of its content) in
the returned `files` mapping and in `mediaFiles`, except that a path equal
to the declared output path or the extraction target is included in
`files` but excluded from `mediaFiles`. -/
theorem convert_new_entry_files_and_media {W : Type}
    (jsonParse : String → Option (List W)) (run : Store → Store)
    (options : Options) (stdin : Option String) (files0 : Obj)
    (seed : SeedResult) (res : RunResult W) (name : String) (e : FileEntry)
    (hseed : seedPhase options stdin files0 = .ok seed)
    (hres : convert jsonParse run options stdin files0 = .ok res)
    (hmem : (name, e) ∈ run seed.store)
    (hnodup : (List.map Prod.fst (run seed.store)).Nodup)
    (hdata : e.data ≠ [])
    (hnk : name ∉ knownPathSet options files0) :
    res.files.get? name = some (.blob e.data) ∧
      (jsOrNull options.outputFile ≠ some name ∧
          jsOrNull options.extractMedia ≠ some name →
        res.mediaFiles.get? name = some (.blob e.data)) ∧
      (jsOrNull options.outputFile = some name ∨
          jsOrNull options.extractMedia = some name →
        res.mediaFiles.get? name = none) := by
  obtain ⟨seed', hseed', hf, hm⟩ :=
    convert_ok_decomp jsonParse run options stdin files0 res hres
  rw [hseed] at hseed'
  injection hseed' with hseedEq
  subst hseedEq
  have hnk' : name ∉ seed.known := by
    rw [(seedPhase_ok_known options stdin files0 seed hseed).1]
    exact hnk
  have hnew := classify_get?_new seed.known (jsOrNull options.outputFile)
    (jsOrNull options.extractMedia) (run seed.store)
    (harvestDeclared options (run seed.store) seed.files) [] name e
    hmem hnodup hnk' hdata
  refine ⟨by rw [hf]; exact hnew.1,
    fun hc => by rw [hm]; exact hnew.2.1 hc,
    fun hc => ?_⟩
  rw [hm, hnew.2.2 hc]
  rfl

/-- C1 witness: a fresh media file written under a directory-form
extraction target lands in both mappings. -/
theorem convert_new_entry_files_and_media_witness :
    seedPhase ⟨none, some "media"⟩ none [] =
      .ok ⟨[("stdin", ⟨[], true⟩), ("stdout", ⟨[], false⟩),
        ("stderr", ⟨[], false⟩), ("warnings", ⟨[], false⟩),
        ("media", ⟨[], false⟩)],
        ["stdin", "stdout", "stderr", "warnings"], []⟩ ∧
    convert (fun _ => (none : Option (List Unit)))
        (fun fs => Store.set fs "media/i.png" ⟨[7], false⟩)
        ⟨none, some "media"⟩ none [] =
      .ok ⟨"", "", [], [("media/i.png", .blob [7])],
        [("media/i.png", .blob [7])]⟩ ∧
    Obj.get? [("media/i.png", Value.blob [7])] "media/i.png" =
      some (.blob [7]) ∧
    Obj.get? [("media/i.png", Value.blob [7])] "media/i.png" =
      some (.blob [7]) := by
  have h := convert_new_entry_files_and_media
    (fun _ => (none : Option (List Unit)))
    (fun fs => Store.set fs "media/i.png" ⟨[7], false⟩)
    ⟨none, some "media"⟩ none []
    ⟨[("stdin", ⟨[], true⟩), ("stdout", ⟨[], false⟩),
      ("stderr", ⟨[], false⟩), ("warnings", ⟨[], false⟩),
      ("media", ⟨[], false⟩)],
      ["stdin", "stdout", "stderr", "warnings"], []⟩
    ⟨"", "", [], [("media/i.png", .blob [7])],
      [("media/i.png", .blob [7])]⟩
    "media/i.png" ⟨[7], false⟩ (by decide) (by decide) (by decide)
    (by decide) (by decide) (by decide)
  exact ⟨by decide, by decide, h.1, h.2.1 ⟨by decide, by decide⟩⟩


/-- C2 counterexample: the `"stdout"` entry has non-empty content after
the module writes to it and its path is in the KnownPathSet, yet it is
absent from the returned `files` mapping — so a KnownPathSet entry is not
always included in `files`. -/
theorem known_entry_not_always_in_files :
    "stdout" ∈ knownPathSet ⟨none, none⟩ [] ∧
    seedPhase ⟨none, none⟩ none [] =
      .ok ⟨[("stdin", ⟨[], true⟩), ("stdout", ⟨[], false⟩),
        ("stderr", ⟨[], false⟩), ("warnings", ⟨[], false⟩)],
        ["stdin", "stdout", "stderr", "warnings"], []⟩ ∧
    ("stdout", (⟨[120], false⟩ : FileEntry)) ∈
      Store.set [("stdin", ⟨[], true⟩), ("stdout", ⟨[], false⟩),
        ("stderr", ⟨[], false⟩), ("warnings", ⟨[], false⟩)]
        "stdout" ⟨[120], false⟩ ∧
    convert (fun _ => (none : Option (List Unit)))
        (fun fs => Store.set fs "stdout" ⟨[120], false⟩)
        ⟨none, none⟩ none [] = .ok ⟨"x", "", [], [], []⟩ ∧
    Obj.get? ([] : Obj) "stdout" = none := by
  decide

/-- C2 (amended): a KnownPathSet path never appears in `mediaFiles`;
caller-supplied input paths appear in `files` with the caller's original
value (passthrough, even if the module rewrote the entry); the four system
paths do not appear in `files` (their contents are returned through the
`stdout`/`stderr`/`warnings` result fields instead). -/
theorem known_paths_passthrough_amended {W : Type}
    (jsonParse : String → Option (List W)) (run : Store → Store)
    (options : Options) (stdin : Option String) (files0 : Obj)
    (res : RunResult W) (name : String)
    (hres : convert jsonParse run options stdin files0 = .ok res) :
    (name ∈ knownPathSet options files0 →
      Obj.get? res.mediaFiles name = none) ∧
    (name ∈ sysPaths → name ∉ files0.map Prod.fst →
      jsOrNull options.outputFile ≠ some name →
      jsOrNull options.extractMedia ≠ some name →
      Obj.get? res.files name = none) ∧
    (name ∈ files0.map Prod.fst →
      jsOrNull options.outputFile ≠ some name →
      jsOrNull options.extractMedia ≠ some name →
      Obj.get? res.files name = Obj.get? files0 name) := by
  obtain ⟨seed, hseed, hf, hm⟩ :=
    convert_ok_decomp jsonParse run options stdin files0 res hres
  obtain ⟨hk, hfi⟩ := seedPhase_ok_known options stdin files0 seed hseed
  refine ⟨fun hmem => ?_, fun hsys hnin ho hx => ?_, fun hin ho hx => ?_⟩
  · rw [hm, (classify_get?_known seed.known (jsOrNull options.outputFile)
      (jsOrNull options.extractMedia) (run seed.store)
      (harvestDeclared options (run seed.store) seed.files) [] name
      (by rw [hk]; exact hmem)).2]
    rfl
  · have hmem : name ∈ seed.known := by
      rw [hk]; simp [knownPathSet, hsys]
    rw [hf, (classify_get?_known seed.known (jsOrNull options.outputFile)
      (jsOrNull options.extractMedia) (run seed.store)
      (harvestDeclared options (run seed.store) seed.files) [] name
      hmem).1,
      harvestDeclared, harvestOne_get?_ne _ _ _ _ hx,
      harvestOne_get?_ne _ _ _ _ ho, hfi]
    exact Obj.get?_eq_none files0 name hnin
  · have hmem : name ∈ seed.known := by
      rw [hk]; simp [knownPathSet, hin]
    rw [hf, (classify_get?_known seed.known (jsOrNull options.outputFile)
      (jsOrNull options.extractMedia) (run seed.store)
      (harvestDeclared options (run seed.store) seed.files) [] name
      hmem).1,
      harvestDeclared, harvestOne_get?_ne _ _ _ _ hx,
      harvestOne_get?_ne _ _ _ _ ho, hfi]

/-- C2 witness: concrete run with a caller input the module rewrites and a
module-written `stdout`: the input is passed through with its original
value, `stdout` stays out of `files`, and known paths stay out of
`mediaFiles`. -/
theorem known_paths_passthrough_amended_witness :
    convert (fun _ => (none : Option (List Unit)))
        (fun fs => Store.set (Store.set fs "stdout" ⟨[120], false⟩)
          "a.md" ⟨[9], false⟩)
        ⟨none, none⟩ none [("a.md", .str "q")] =
      .ok ⟨"x", "", [], [("a.md", .str "q")], []⟩ ∧
    (Obj.get? ([] : Obj) "a.md" = none) ∧
    (Obj.get? [("a.md", Value.str "q")] "stdout" = none) ∧
    (Obj.get? [("a.md", Value.str "q")] "a.md" =
      Obj.get? [("a.md", Value.str "q")] "a.md") := by
  have h := known_paths_passthrough_amended
    (fun _ => (none : Option (List Unit)))
    (fun fs => Store.set (Store.set fs "stdout" ⟨[120], false⟩)
      "a.md" ⟨[9], false⟩)
    ⟨none, none⟩ none [("a.md", .str "q")]
    ⟨"x", "", [], [("a.md", .str "q")], []⟩ "a.md" (by decide)
  have h2 := known_paths_passthrough_amended
    (fun _ => (none : Option (List Unit)))
    (fun fs => Store.set (Store.set fs "stdout" ⟨[120], false⟩)
      "a.md" ⟨[9], false⟩)
    ⟨none, none⟩ none [("a.md", .str "q")]
    ⟨"x", "", [], [("a.md", .str "q")], []⟩ "stdout" (by decide)
  refine ⟨by decide, ?_, ?_, ?_⟩
  · exact h.1 (by decide)
  · exact h2.2.1 (by decide) (by decide) (by decide) (by decide)
  · exact h.2.2 (by decide) (by decide) (by decide)

/-- C3 counterexample: with a directory-form extraction target `"media"`,
a file the module writes underneath it (`"media/img1.png"`) can still be
in the KnownPathSet — when the caller supplied an input at that exact path
— and then it does not land in `mediaFiles`. -/
theorem extract_dir_known_collision :
    jsEndsWith "media" ".zip" = false ∧
    "media/img1.png" ∈
      knownPathSet ⟨none, some "media"⟩ [("media/img1.png", .str "x")] ∧
    convert (fun _ => (none : Option (List Unit)))
        (fun fs => Store.set fs "media/img1.png" ⟨[121], false⟩)
        ⟨none, some "media"⟩ none [("media/img1.png", .str "x")] =
      .ok ⟨"", "", [], [("media/img1.png", .str "x")], []⟩ ∧
    Obj.get? ([] : Obj) "media/img1.png" = none := by
  decide

/-- C3 (amended): the extraction step adds the extraction target to the
KnownPathSet iff it ends in `".zip"` (so a target that is not otherwise
seeded is known iff it is archive-form); for a directory-form target,
every file the module writes underneath it that is not itself a seeded
path is absent from the KnownPathSet and lands in both `files` and
`mediaFiles`; an archive-form target written non-empty by the module
appears in `files` but not in `mediaFiles`. -/
theorem extract_media_archive_vs_directory {W : Type}
    (jsonParse : String → Option (List W)) (run : Store → Store)
    (options : Options) (stdin : Option String) (files0 : Obj)
    (seed : SeedResult) (res : RunResult W) (m : String)
    (hx : jsOrNull options.extractMedia = some m)
    (hseed : seedPhase options stdin files0 = .ok seed)
    (hres : convert jsonParse run options stdin files0 = .ok res) :
    (m ∉ sysPaths → m ∉ files0.map Prod.fst →
      jsOrNull options.outputFile ≠ some m →
      (m ∈ knownPathSet options files0 ↔ jsEndsWith m ".zip" = true)) ∧
    (∀ r e, (m ++ "/" ++ r, e) ∈ run seed.store →
      (List.map Prod.fst (run seed.store)).Nodup → e.data ≠ [] →
      (m ++ "/" ++ r) ∉ sysPaths →
      (m ++ "/" ++ r) ∉ files0.map Prod.fst →
      jsOrNull options.outputFile ≠ some (m ++ "/" ++ r) →
      (m ++ "/" ++ r) ∉ knownPathSet options files0 ∧
        Obj.get? res.files (m ++ "/" ++ r) = some (.blob e.data) ∧
        Obj.get? res.mediaFiles (m ++ "/" ++ r) = some (.blob e.data)) ∧
    (jsEndsWith m ".zip" = true →
      ∀ e, Store.get? (run seed.store) m = some e → e.data ≠ [] →
        Obj.get? res.files m = some (.blob e.data) ∧
          Obj.get? res.mediaFiles m = none) := by
  obtain ⟨seed', hseed', hf, hm⟩ :=
    convert_ok_decomp jsonParse run options stdin files0 res hres
  rw [hseed] at hseed'
  injection hseed' with hseedEq
  subst hseedEq
  obtain ⟨hk, hfi⟩ := seedPhase_ok_known options stdin files0 seed hseed
  refine ⟨fun hsys hnin ho => ?_,
    fun r e hmem hnodup hdata hpsys hpnin ho => ?_,
    fun hz e hg hdata => ?_⟩
  · constructor
    · intro hmem
      rcases List.mem_append.mp hmem with hmem | hmem
      · rcases List.mem_append.mp hmem with hmem | hmem
        · rcases List.mem_append.mp hmem with hmem | hmem
          · exact absurd hmem hsys
          · exact absurd hmem hnin
        · cases hout : jsOrNull options.outputFile with
          | none => rw [hout] at hmem; cases hmem
          | some o =>
            rw [hout] at hmem
            rcases List.mem_singleton.mp hmem with rfl
            exact absurd hout ho
      · rw [hx] at hmem
        have hmem' : m ∈ (if jsEndsWith m ".zip" = true then [m]
            else ([] : List String)) := hmem
        by_cases hz : jsEndsWith m ".zip" = true
        · exact hz
        · rw [if_neg hz] at hmem'
          cases hmem'
    · intro hz
      simp [knownPathSet, hx, hz]
  · have hnk : (m ++ "/" ++ r) ∉ knownPathSet options files0 := by
      intro hmem'
      rcases List.mem_append.mp hmem' with hmem' | hmem'
      · rcases List.mem_append.mp hmem' with hmem' | hmem'
        · rcases List.mem_append.mp hmem' with hmem' | hmem'
          · exact absurd hmem' hpsys
          · exact absurd hmem' hpnin
        · cases hout : jsOrNull options.outputFile with
          | none => rw [hout] at hmem'; cases hmem'
          | some o =>
            rw [hout] at hmem'
            rcases List.mem_singleton.mp hmem' with rfl
            exact absurd hout ho
      · rw [hx] at hmem'
        have hmem2 : (m ++ "/" ++ r) ∈
            (if jsEndsWith m ".zip" = true then [m]
              else ([] : List String)) := hmem'
        by_cases hz : jsEndsWith m ".zip" = true
        · rw [if_pos hz] at hmem2
          rcases List.mem_singleton.mp hmem2 with heq
          exact ne_append_slash m r heq.symm
        · rw [if_neg hz] at hmem2
          cases hmem2
    have hnk' : (m ++ "/" ++ r) ∉ seed.known := by rw [hk]; exact hnk
    have hxne : jsOrNull options.extractMedia ≠ some (m ++ "/" ++ r) := by
      rw [hx]
      intro hcon
      injection hcon with hcon
      exact ne_append_slash m r hcon
    have hnew := classify_get?_new seed.known (jsOrNull options.outputFile)
      (jsOrNull options.extractMedia) (run seed.store)
      (harvestDeclared options (run seed.store) seed.files) []
      (m ++ "/" ++ r) e hmem hnodup hnk' hdata
    exact ⟨hnk, by rw [hf]; exact hnew.1,
      by rw [hm]; exact hnew.2.1 ⟨ho, hxne⟩⟩
  · have hmem : m ∈ seed.known := by rw [hk]; simp [knownPathSet, hx, hz]
    have hknown := classify_get?_known seed.known
      (jsOrNull options.outputFile) (jsOrNull options.extractMedia)
      (run seed.store)
      (harvestDeclared options (run seed.store) seed.files) [] m hmem
    refine ⟨?_, by rw [hm, hknown.2]; rfl⟩
    rw [hf, hknown.1, harvestDeclared, hx]
    exact harvestOne_get?_self (run seed.store) m _ e hg hdata

/-- C3 witness: a directory-form target lets a fresh file underneath land
in both mappings, and an archive-form target written by the module lands
in `files` but not `mediaFiles`. -/
theorem extract_media_archive_vs_directory_witness :
    jsEndsWith "media" ".zip" = false ∧
    ("media" ∈ knownPathSet ⟨none, some "media"⟩ [] ↔
      jsEndsWith "media" ".zip" = true) ∧
    ("media/i.png" ∉ knownPathSet ⟨none, some "media"⟩ [] ∧
      Obj.get? [("media/i.png", Value.blob [7])] "media/i.png" =
        some (.blob [7]) ∧
      Obj.get? [("media/i.png", Value.blob [7])] "media/i.png" =
        some (.blob [7])) ∧
    (Obj.get? [("media.zip", Value.blob [1, 2])] "media.zip" =
        some (.blob [1, 2]) ∧
      Obj.get? ([] : Obj) "media.zip" = none) := by
  have hdir := extract_media_archive_vs_directory
    (fun _ => (none : Option (List Unit)))
    (fun fs => Store.set fs "media/i.png" ⟨[7], false⟩)
    ⟨none, some "media"⟩ none []
    ⟨[("stdin", ⟨[], true⟩), ("stdout", ⟨[], false⟩),
      ("stderr", ⟨[], false⟩), ("warnings", ⟨[], false⟩),
      ("media", ⟨[], false⟩)],
      ["stdin", "stdout", "stderr", "warnings"], []⟩
    ⟨"", "", [], [("media/i.png", .blob [7])], [("media/i.png", .blob [7])]⟩
    "media" (by decide) (by decide) (by decide)
  have hzip := extract_media_archive_vs_directory
    (fun _ => (none : Option (List Unit)))
    (fun fs => Store.set fs "media.zip" ⟨[1, 2], false⟩)
    ⟨none, some "media.zip"⟩ none []
    ⟨[("stdin", ⟨[], true⟩), ("stdout", ⟨[], false⟩),
      ("stderr", ⟨[], false⟩), ("warnings", ⟨[], false⟩),
      ("media.zip", ⟨[], false⟩)],
      ["stdin", "stdout", "stderr", "warnings", "media.zip"], []⟩
    ⟨"", "", [], [("media.zip", .blob [1, 2])], []⟩
    "media.zip" (by decide) (by decide) (by decide)
  refine ⟨by decide, hdir.1 (by decide) (by decide) (by decide), ?_, ?_⟩
  · exact hdir.2.1 "i.png" ⟨[7], false⟩ (by decide) (by decide) (by decide)
      (by decide) (by decide) (by decide)
  · exact hzip.2.2 (by decide) ⟨[1, 2], false⟩ (by decide) (by decide)

/-- A declared path (output, or archive-form extraction target) with a
non-empty post-run entry is harvested into the file mapping as a `Blob`
(the extraction harvest runs last and, when both options name the path,
writes the same content). -/
theorem harvestDeclared_get?_declared (options : Options) (post : Store)
    (files : Obj) (p : String) (e : FileEntry)
    (hp : jsOrNull options.outputFile = some p ∨
      jsOrNull options.extractMedia = some p)
    (hg : Store.get? post p = some e) (hd : e.data ≠ []) :
    Obj.get? (harvestDeclared options post files) p = some (.blob e.data) := by
  by_cases hxp : jsOrNull options.extractMedia = some p
  · rw [harvestDeclared, hxp]
    exact harvestOne_get?_self post p _ e hg hd
  · rcases hp with hout | hx
    · rw [harvestDeclared, harvestOne_get?_ne _ _ _ _ hxp, hout]
      exact harvestOne_get?_self post p _ e hg hd
    · exact absurd hx hxp

/-- C5 counterexample: a newly produced store entry whose bytes are valid
UTF-8 (`[104, 105]` decodes to `"hi"`) is returned by `convert` in the
`files` mapping as a binary payload (`Blob`), not as decoded text — so the
RunResult file collection is not converted back through the
decode-or-fallback normalizer. -/
theorem harvested_entry_not_decoded :
    decodeUtf8 [104, 105] = some ['h', 'i'] ∧
    convert (fun _ => (none : Option (List Unit)))
        (fun fs => Store.set fs "note.txt" ⟨[104, 105], false⟩)
        ⟨none, none⟩ none [] =
      .ok ⟨"", "", [], [("note.txt", .blob [104, 105])],
        [("note.txt", .blob [104, 105])]⟩ ∧
    Obj.get? [("note.txt", Value.blob [104, 105])] "note.txt" =
      some (.blob [104, 105]) ∧
    Value.blob [104, 105] ≠ Value.str "hi" := by
  decide

/-- C5 (amended): the decode-or-fallback conversion is implemented by
`convertData` — bytes forming valid UTF-8 become decoded text, bytes
failing the strict decode become a binary payload — but `convert` itself
returns every harvested entry as a binary payload of the store bytes
regardless of UTF-8 validity (caller-supplied entries keep the caller's
original values; `convertData` is applied only by the legacy `pandoc`
adapter). -/
theorem convertData_decode_or_fallback {W : Type}
    (jsonParse : String → Option (List W)) (run : Store → Store)
    (options : Options) (stdin : Option String) (files0 : Obj)
    (seed : SeedResult) (res : RunResult W) (data : Bytes)
    (hseed : seedPhase options stdin files0 = .ok seed)
    (hres : convert jsonParse run options stdin files0 = .ok res) :
    (∀ cs, decodeUtf8 data = some cs → convertData data = .str ⟨cs⟩) ∧
    (decodeUtf8 data = none → convertData data = .blob data) ∧
    (∀ name e, (name, e) ∈ run seed.store →
      (List.map Prod.fst (run seed.store)).Nodup → e.data ≠ [] →
      name ∉ knownPathSet options files0 →
      Obj.get? res.files name = some (.blob e.data)) ∧
    (∀ p e, (jsOrNull options.outputFile = some p ∨
        (jsOrNull options.extractMedia = some p ∧
          jsEndsWith p ".zip" = true)) →
      Store.get? (run seed.store) p = some e → e.data ≠ [] →
      Obj.get? res.files p = some (.blob e.data)) := by
  obtain ⟨seed', hseed', hf, hm⟩ :=
    convert_ok_decomp jsonParse run options stdin files0 res hres
  rw [hseed] at hseed'
  injection hseed' with hseedEq
  subst hseedEq
  refine ⟨fun cs hcs => by rw [convertData, hcs],
    fun hnone => by rw [convertData, hnone],
    fun name e hmem hnodup hdata hnk => ?_,
    fun p e hp hg hdata => ?_⟩
  · have hnk' : name ∉ seed.known := by
      rw [(seedPhase_ok_known options stdin files0 seed hseed).1]
      exact hnk
    have hnew := classify_get?_new seed.known (jsOrNull options.outputFile)
      (jsOrNull options.extractMedia) (run seed.store)
      (harvestDeclared options (run seed.store) seed.files) [] name e
      hmem hnodup hnk' hdata
    rw [hf]
    exact hnew.1
  · have hpk : p ∈ seed.known := by
      rw [(seedPhase_ok_known options stdin files0 seed hseed).1]
      rcases hp with hout | ⟨hx, hz⟩
      · simp [knownPathSet, hout]
      · simp [knownPathSet, hx, hz]
    rw [hf, (classify_get?_known seed.known (jsOrNull options.outputFile)
      (jsOrNull options.extractMedia) (run seed.store)
      (harvestDeclared options (run seed.store) seed.files) [] p hpk).1]
    exact harvestDeclared_get?_declared options (run seed.store)
      seed.files p e (hp.imp (fun hout => hout) (fun hx => hx.1)) hg hdata

/-- C5 witness: invalid bytes fall back to a binary payload under
`convertData`; a concrete newly produced entry and a concrete declared
output written by the module are both returned as `Blob`s of the store
bytes. -/
theorem convertData_decode_or_fallback_witness :
    decodeUtf8 [255] = none ∧
    convertData [255] = .blob [255] ∧
    convert (fun _ => (none : Option (List Unit)))
        (fun fs => Store.set (Store.set fs "out.html" ⟨[255], false⟩)
          "img.bin" ⟨[254], false⟩)
        ⟨some "out.html", none⟩ none [] =
      .ok ⟨"", "", [], [("out.html", .blob [255]), ("img.bin", .blob [254])],
        [("img.bin", .blob [254])]⟩ ∧
    Obj.get? [("out.html", Value.blob [255]), ("img.bin", Value.blob [254])]
      "img.bin" = some (.blob [254]) ∧
    Obj.get? [("out.html", Value.blob [255]), ("img.bin", Value.blob [254])]
      "out.html" = some (.blob [255]) := by
  have h := convertData_decode_or_fallback
    (fun _ => (none : Option (List Unit)))
    (fun fs => Store.set (Store.set fs "out.html" ⟨[255], false⟩)
      "img.bin" ⟨[254], false⟩)
    ⟨some "out.html", none⟩ none []
    ⟨[("stdin", ⟨[], true⟩), ("stdout", ⟨[], false⟩),
      ("stderr", ⟨[], false⟩), ("warnings", ⟨[], false⟩),
      ("out.html", ⟨[], false⟩)],
      ["stdin", "stdout", "stderr", "warnings", "out.html"], []⟩
    ⟨"", "", [], [("out.html", .blob [255]), ("img.bin", .blob [254])],
      [("img.bin", .blob [254])]⟩
    [255] (by decide) (by decide)
  refine ⟨by decide, h.2.1 (by decide), by decide, ?_, ?_⟩
  · exact h.2.2.1 "img.bin" ⟨[254], false⟩ (by decide) (by decide)
      (by decide) (by decide)
  · exact h.2.2.2 "out.html" ⟨[255], false⟩ (Or.inl (by decide))
      (by decide) (by decide)

/-- C8: when the diagnostic streams decode as valid UTF-8, the run never
aborts, whatever `JSON.parse` does on the warnings stream: a parse failure
(or a non-list parse) degrades to an empty warnings list, an empty
warnings stream yields an empty list, and a non-empty warnings record
list arises only from a non-empty, successfully parsed stream. -/
theorem warnings_parse_best_effort {W : Type}
    (jsonParse : String → Option (List W)) (run : Store → Store)
    (options : Options) (stdin : Option String) (files0 : Obj)
    (seed : SeedResult) (wcs ocs ecs : List Char)
    (hseed : seedPhase options stdin files0 = .ok seed)
    (hw : decodeUtf8 (readData (run seed.store) "warnings") = some wcs)
    (ho : decodeUtf8 (readData (run seed.store) "stdout") = some ocs)
    (he : decodeUtf8 (readData (run seed.store) "stderr") = some ecs) :
    (∀ err, convert jsonParse run options stdin files0 ≠ .error err) ∧
    (∀ res, convert jsonParse run options stdin files0 = .ok res →
      (jsonParse ⟨wcs⟩ = none → res.warnings = []) ∧
      (wcs = [] → res.warnings = []) ∧
      (res.warnings ≠ [] →
        wcs ≠ [] ∧ jsonParse ⟨wcs⟩ = some res.warnings)) := by
  have hconv : convert jsonParse run options stdin files0 =
      .ok ⟨⟨ocs⟩, ⟨ecs⟩,
        (if (⟨wcs⟩ : String) ≠ "" then
          match jsonParse ⟨wcs⟩ with
          | some w => w
          | none => []
        else []),
        (classify seed.known (jsOrNull options.outputFile)
          (jsOrNull options.extractMedia) (run seed.store)
          (harvestDeclared options (run seed.store) seed.files) []).1,
        (classify seed.known (jsOrNull options.outputFile)
          (jsOrNull options.extractMedia) (run seed.store)
          (harvestDeclared options (run seed.store) seed.files) []).2⟩ := by
    simp only [convert, hseed, hw, ho, he]
  refine ⟨fun err hcontra => ?_, fun res hres => ?_⟩
  · rw [hconv] at hcontra
    cases hcontra
  rw [hconv] at hres
  injection hres with hres
  subst hres
  refine ⟨fun hjp => ?_, fun hwcs => ?_, fun hne => ?_⟩
  · show (if (⟨wcs⟩ : String) ≠ "" then
        match jsonParse ⟨wcs⟩ with
        | some w => w
        | none => []
      else []) = []
    by_cases hcond : (⟨wcs⟩ : String) ≠ ""
    · rw [if_pos hcond, hjp]
    · rw [if_neg hcond]
  · subst hwcs
    show (if (⟨[]⟩ : String) ≠ "" then
        match jsonParse ⟨[]⟩ with
        | some w => w
        | none => []
      else []) = []
    rw [if_neg (fun hcon => hcon rfl)]
  · revert hne
    show (if (⟨wcs⟩ : String) ≠ "" then
        match jsonParse ⟨wcs⟩ with
        | some w => w
        | none => []
      else []) ≠ [] → _
    by_cases hcond : (⟨wcs⟩ : String) ≠ ""
    · rw [if_pos hcond]
      cases hjp : jsonParse ⟨wcs⟩ with
      | none => intro hne; exact absurd rfl hne
      | some w =>
        intro _
        refine ⟨fun hwcs => hcond (by rw [hwcs]), rfl⟩
    · rw [if_neg hcond]
      intro hne
      exact absurd rfl hne

/-- C8 witness: a module-written warnings stream that decodes but fails to
parse leaves the run successful with an empty warnings list. -/
theorem warnings_parse_best_effort_witness :
    decodeUtf8 (readData (Store.set [("stdin", ⟨[], true⟩),
      ("stdout", ⟨[], false⟩), ("stderr", ⟨[], false⟩),
      ("warnings", ⟨[], false⟩)] "warnings" ⟨[91], false⟩) "warnings") =
      some ['['] ∧
    convert (fun _ => (none : Option (List Unit)))
        (fun fs => Store.set fs "warnings" ⟨[91], false⟩)
        ⟨none, none⟩ none [] = .ok ⟨"", "", [], [], []⟩ ∧
    (∀ err, convert (fun _ => (none : Option (List Unit)))
        (fun fs => Store.set fs "warnings" ⟨[91], false⟩)
        ⟨none, none⟩ none [] ≠ .error err) ∧
    RunResult.warnings (⟨"", "", [], [], []⟩ : RunResult Unit) = [] := by
  have h := warnings_parse_best_effort
    (fun _ => (none : Option (List Unit)))
    (fun fs => Store.set fs "warnings" ⟨[91], false⟩)
    ⟨none, none⟩ none []
    ⟨[("stdin", ⟨[], true⟩), ("stdout", ⟨[], false⟩),
      ("stderr", ⟨[], false⟩), ("warnings", ⟨[], false⟩)],
      ["stdin", "stdout", "stderr", "warnings"], []⟩
    ['['] [] [] (by decide) (by decide) (by decide) (by decide)
  refine ⟨by decide, by decide, h.1, ?_⟩
  exact (h.2 ⟨"", "", [], [], []⟩ (by decide)).1 rfl

end PandocWasm
